import Mathlib

/-!
Verification development for the FIFO-lot portfolio backtester
(`src/backtester.py` of the Dynamic-SIP-optimizer repository).

The Python module is embedded shallowly:
* `pd.Timestamp` dates become `Int` (day numbers; `(date - lot.date).days`
  becomes integer subtraction);
* Python `float` arithmetic becomes exact `ℚ` arithmetic;
* the `lots: Dict[str, List[Lot]]` dictionary becomes an association list
  `List (String × List Lot)` preserving insertion order; a failed key lookup
  (Python `KeyError`) and a float division by zero (Python
  `ZeroDivisionError`) are modelled by `Option` results (`none` = the call
  raises);
* the verbose FIFO log lines, which are formatted strings in Python, are
  modelled as structured `LogLine` records carrying exactly the data each
  line interpolates (lot acquisition date, units sold from the slice, sale
  NAV, and the three per-slice fees).
-/

namespace SIPBacktester

/-- Embeds the `Lot` dataclass: one purchase lot. -/
structure Lot where
  date : Int
  fund : String
  units : ℚ
  navAtBuy : ℚ
deriving DecidableEq

/-- Embeds one verbose FIFO log line emitted per depleted slice
(`fifo_log.append(f"Lot {lot.date.date()} -> sold {use_units} units @ {sell_nav}; ...")`). -/
structure LogLine where
  lotDate : Int
  soldUnits : ℚ
  sellNav : ℚ
  exitFee : ℚ
  sttFee : ℚ
  txnFee : ℚ
deriving DecidableEq

/-- Embeds the `Trade` dataclass recorded in the trade log. -/
structure Trade where
  date : Int
  fund : String
  action : String
  units : ℚ
  nav : ℚ
  grossValue : ℚ
  exitLoad : ℚ
  stt : ℚ
  txnCost : ℚ
  netCashFlow : ℚ
  fifoLog : Option (List LogLine)
deriving DecidableEq

/-- Embeds the `Portfolio` dataclass state. -/
structure Portfolio where
  funds : List String
  cash : ℚ
  exitLoadSchedule : List (Int × ℚ)
  sttSellBps : ℚ
  txnCostBps : ℚ
  lots : List (String × List Lot)
  tradeLog : List Trade
deriving DecidableEq

/-- Dictionary lookup `self.lots[fund]`; `none` models a Python `KeyError`. -/
def lookupLots (l : List (String × List Lot)) (f : String) : Option (List Lot) :=
  (l.find? (fun e => e.1 == f)).map (fun e => e.2)

/-- Dictionary assignment `self.lots[fund] = v` (replaces in place, inserts
at the end when the key is absent, as a Python dict does). -/
def setLots (l : List (String × List Lot)) (f : String) (v : List Lot) :
    List (String × List Lot) :=
  match l with
  | [] => [(f, v)]
  | e :: rest => if e.1 == f then (f, v) :: rest else e :: setLots rest f v

/-- Embeds `dict.setdefault(f, [])` used by `Portfolio.__post_init__`. -/
def setdefaultLots (l : List (String × List Lot)) (f : String) :
    List (String × List Lot) :=
  if (l.find? (fun e => e.1 == f)).isSome then l else l ++ [(f, [])]

/-- Embeds the `__post_init__` loop `for f in self.funds: self.lots.setdefault(f, [])`
starting from the default empty dict. -/
def initLots : List String → List (String × List Lot) → List (String × List Lot)
  | [], acc => acc
  | f :: fs, acc => initLots fs (setdefaultLots acc f)

/-- Constructs a `Portfolio` the way the dataclass constructor plus
`__post_init__` does, with the default empty `lots` and `trade_log`. -/
def mkPortfolio (funds : List String) (cash : ℚ) (sched : List (Int × ℚ))
    (sttBps txnBps : ℚ) : Portfolio :=
  { funds := funds
    cash := cash
    exitLoadSchedule := sched
    sttSellBps := sttBps
    txnCostBps := txnBps
    lots := initLots funds []
    tradeLog := [] }

/-- Embeds Python `sum(l.units for l in lots)`. -/
def sumUnits (L : List Lot) : ℚ := L.foldr (fun l a => l.units + a) 0

/-- Embeds `Portfolio.position_units` (raises `KeyError` on an unknown fund,
modelled by `none`). -/
def positionUnits (p : Portfolio) (f : String) : Option ℚ :=
  (lookupLots p.lots f).map sumUnits

/-- Embeds `Portfolio.position_value`. -/
def positionValue (p : Portfolio) (f : String) (nav : ℚ) : Option ℚ :=
  (positionUnits p f).map (fun u => u * nav)

/-- Embeds `Portfolio.total_value`: cash plus each fund's position value. -/
def totalValue (p : Portfolio) (navsRow : String → ℚ) : Option ℚ :=
  p.funds.foldlM (fun acc f => (positionValue p f (navsRow f)).map (fun v => acc + v)) p.cash

/-- Embeds the exit-load tier scan of `_apply_costs_on_sell`:
`for max_days, bps in schedule: if holding_days <= max_days: exit_bps = bps; break`,
with `exit_bps = 0.0` when no tier matches. -/
def exitBps : List (Int × ℚ) → Int → ℚ
  | [], _ => 0
  | t :: rest, d => if d ≤ t.1 then t.2 else exitBps rest d

/-- Accumulators of the FIFO depletion loop of `_apply_costs_on_sell`. -/
structure WalkRes where
  newFifo : List Lot
  gross : ℚ
  exitTotal : ℚ
  sttTotal : ℚ
  txnTotal : ℚ
  soldUnits : ℚ
  log : List LogLine
deriving DecidableEq

/-- Embeds the `for lot in fifo` loop body of `_apply_costs_on_sell`:
walks the lots in order carrying `units_left`, builds `new_fifo`, and
accumulates gross value, the three fee totals, sold units, and the verbose
log. -/
def sellWalk (sched : List (Int × ℚ)) (sttBps txnBps : ℚ) (date : Int)
    (sellNav : ℚ) (verbose : Bool) : List Lot → ℚ → WalkRes
  | [], _ => ⟨[], 0, 0, 0, 0, 0, []⟩
  | lot :: rest, unitsLeft =>
    if unitsLeft ≤ 0 then
      let r := sellWalk sched sttBps txnBps date sellNav verbose rest unitsLeft
      { r with newFifo := lot :: r.newFifo }
    else
      let useUnits := min lot.units unitsLeft
      let val := useUnits * sellNav
      let holdingDays := date - lot.date
      let exitFee := val * (exitBps sched holdingDays / 10000)
      let sttFee := val * (sttBps / 10000)
      let txnFee := val * (txnBps / 10000)
      let remaining := lot.units - useUnits
      let r := sellWalk sched sttBps txnBps date sellNav verbose rest (unitsLeft - useUnits)
      { newFifo :=
          (if remaining > 0 then [Lot.mk lot.date lot.fund remaining lot.navAtBuy] else [])
            ++ r.newFifo
        gross := val + r.gross
        exitTotal := exitFee + r.exitTotal
        sttTotal := sttFee + r.sttTotal
        txnTotal := txnFee + r.txnTotal
        soldUnits := useUnits + r.soldUnits
        log :=
          (if verbose then [LogLine.mk lot.date useUnits sellNav exitFee sttFee txnFee] else [])
            ++ r.log }

/-- Return value of `_apply_costs_on_sell`:
`(units_sold, gross_value, total_costs, net_cash_in, fifo_log)`. -/
structure SellRes where
  soldUnits : ℚ
  gross : ℚ
  totalCosts : ℚ
  netCash : ℚ
  log : List LogLine
deriving DecidableEq

/-- Embeds `Portfolio._apply_costs_on_sell`: looks up the fund's FIFO list
(`KeyError` = `none`), walks it, writes back `new_fifo`, and returns the
sale report. -/
def applyCostsOnSell (p : Portfolio) (date : Int) (fund : String)
    (unitsToSell sellNav : ℚ) (verbose : Bool) : Option (SellRes × Portfolio) :=
  match lookupLots p.lots fund with
  | none => none
  | some fifo =>
    let r := sellWalk p.exitLoadSchedule p.sttSellBps p.txnCostBps date sellNav verbose
      fifo unitsToSell
    let totalCosts := r.exitTotal + r.sttTotal + r.txnTotal
    some (⟨r.soldUnits, r.gross, totalCosts, r.gross - totalCosts, r.log⟩,
      { p with lots := setLots p.lots fund r.newFifo })

/-- Embeds `Portfolio.sell`: applies `_apply_costs_on_sell`, and when sold
units are positive credits the net cash and appends one SELL `Trade`.
Note the source passes `total_costs` as the Trade's `exit_load` argument,
and recomputes the STT and txn fields from the aggregate gross value. -/
def sell (p : Portfolio) (date : Int) (fund : String) (units nav : ℚ)
    (verbose : Bool) : Option Portfolio :=
  (applyCostsOnSell p date fund units nav verbose).map (fun rp =>
    let r := rp.1
    let p1 := rp.2
    if r.soldUnits ≤ 0 then p1
    else
      { p1 with
        cash := p1.cash + r.netCash
        tradeLog := p1.tradeLog ++
          [⟨date, fund, "SELL", r.soldUnits, nav, r.gross, r.totalCosts,
            r.gross * (p.sttSellBps / 10000), r.gross * (p.txnCostBps / 10000),
            r.netCash, if verbose then some r.log else none⟩] })

/-- Embeds `Portfolio.buy`. The early `cash_to_spend <= 0` return and the
`units <= 0` return are silent no-ops; `nav = 0` models the float
`ZeroDivisionError` raised by `net_cash / nav`; the ledger append
`self.lots[fund].append(...)` raises `KeyError` (= `none`) on an unknown
fund. -/
def buy (p : Portfolio) (date : Int) (fund : String) (cashToSpend nav : ℚ) :
    Option Portfolio :=
  if cashToSpend ≤ 0 then some p
  else
    let txnFee := cashToSpend * (p.txnCostBps / 10000)
    let netCash := cashToSpend - txnFee
    if nav = 0 then none
    else
      let units := netCash / nav
      if units ≤ 0 then some p
      else
        match lookupLots p.lots fund with
        | none => none
        | some fifo =>
          some { p with
            lots := setLots p.lots fund (fifo ++ [Lot.mk date fund units nav])
            cash := p.cash - cashToSpend
            tradeLog := p.tradeLog ++
              [⟨date, fund, "BUY", units, nav, cashToSpend, 0, 0, txnFee,
                -cashToSpend, none⟩] }

/-- Embeds `Series.get(f, 0.0)` on the per-fund value series built in
`rebalance`. -/
def getOr0 (l : List (String × ℚ)) (f : String) : ℚ :=
  ((l.find? (fun e => e.1 == f)).map (fun e => e.2)).getD 0

/-- Embeds `curr_val = self.current_weights(navs_row) * total_val` as the
per-fund list of values: all zeros when total value is ≤ 0 (the
`current_weights` fallback), otherwise `(position_value / total) * total`
per fund. -/
def currVals (p : Portfolio) (navsRow : String → ℚ) (totalVal : ℚ) :
    Option (List (String × ℚ)) :=
  if totalVal ≤ 0 then some (p.funds.map (fun f => (f, 0)))
  else p.funds.mapM (fun f =>
    (positionValue p f (navsRow f)).map (fun v => (f, v / totalVal * totalVal)))

/-- Embeds the first `for f in self.funds` loop of `rebalance` (the sell
phase): each fund whose value delta is negative is sold down by
`min(-delta, total_val * turnover_cap)` worth of units. `capVal` is
`total_val * turnover_cap`; `navsRow f = 0` models the `ZeroDivisionError`
of `val_to_sell / navs_row[f]`. -/
def rebalanceSells (date : Int) (navsRow : String → ℚ) (delta : String → ℚ)
    (capVal : ℚ) : Portfolio → List String → Option Portfolio
  | p, [] => some p
  | p, f :: fs =>
    if delta f < 0 then
      let valToSell := min (-delta f) capVal
      if navsRow f = 0 then none
      else
        (sell p date f (valToSell / navsRow f) (navsRow f) false).bind
          (fun p1 => rebalanceSells date navsRow delta capVal p1 fs)
    else rebalanceSells date navsRow delta capVal p fs

/-- Embeds the second `for f in self.funds` loop of `rebalance` (the buy
phase): spends from the shared `cash_available` budget in iteration order. -/
def rebalanceBuys (date : Int) (navsRow : String → ℚ) (delta : String → ℚ) :
    Portfolio → ℚ → List String → Option Portfolio
  | p, _, [] => some p
  | p, cashAvail, f :: fs =>
    if delta f > 0 ∧ cashAvail > 0 then
      let spend := min (delta f) cashAvail
      (buy p date f spend (navsRow f)).bind
        (fun p1 => rebalanceBuys date navsRow delta p1 (cashAvail - spend) fs)
    else rebalanceBuys date navsRow delta p cashAvail fs

/-- Embeds `Portfolio.rebalance`: computes total value, per-fund current
values and target deltas once, runs the sell phase with per-iteration cap
`total_val * turnover_cap`, then the buy phase with budget
`min(cash, total_val * turnover_cap)`. -/
def rebalance (p : Portfolio) (date : Int) (navsRow targetW : String → ℚ)
    (turnoverCap : ℚ) : Option Portfolio :=
  (totalValue p navsRow).bind (fun totalVal =>
    (currVals p navsRow totalVal).bind (fun cv =>
      let delta := fun f => targetW f * totalVal - getOr0 cv f
      (rebalanceSells date navsRow delta (totalVal * turnoverCap) p p.funds).bind
        (fun p1 =>
          let cashAvailable := min p1.cash (totalVal * turnoverCap)
          rebalanceBuys date navsRow delta p1 cashAvailable p.funds)))

/-- One buy instruction, used to describe states reachable by a sequence of
buys on a single holding. -/
structure BuyOp where
  date : Int
  cash : ℚ
  nav : ℚ
deriving DecidableEq

/-- Applies a sequence of `buy` calls on one fund, propagating failures. -/
def applyBuys (fund : String) : Portfolio → List BuyOp → Option Portfolio
  | p, [] => some p
  | p, b :: bs => (buy p b.date fund b.cash b.nav).bind (fun p1 => applyBuys fund p1 bs)

end SIPBacktester

namespace SIPBacktester

/-! ### Concrete portfolio states used by counterexamples and witnesses -/

/-- A one-fund portfolio holding a single lot of 10 units bought at NAV 10 on
day 0, with the module's default cost configuration. -/
def P1 : Portfolio :=
  { funds := ["F"], cash := 0, exitLoadSchedule := [(365, 100)],
    sttSellBps := 10, txnCostBps := 2,
    lots := [("F", [⟨0, "F", 10, 10⟩])], tradeLog := [] }

/-- A two-fund portfolio, each fund holding 10 units bought at NAV 10 on day
0, used to exercise the rebalance turnover cap. -/
def P2 : Portfolio :=
  { funds := ["A", "B"], cash := 0, exitLoadSchedule := [(365, 100)],
    sttSellBps := 10, txnCostBps := 2,
    lots := [("A", [⟨0, "A", 10, 10⟩]), ("B", [⟨0, "B", 10, 10⟩])], tradeLog := [] }

/-- The state `rebalance` produces from `P2` with all-zero target weights and
a 10% turnover cap: each fund is sold down by the per-holding cap value 20. -/
def P2after : Portfolio :=
  { funds := ["A", "B"], cash := 4944/125, exitLoadSchedule := [(365, 100)],
    sttSellBps := 10, txnCostBps := 2,
    lots := [("A", [⟨0, "A", 8, 10⟩]), ("B", [⟨0, "B", 8, 10⟩])],
    tradeLog :=
      [⟨100, "A", "SELL", 2, 10, 20, 28/125, 1/50, 1/250, 2472/125, none⟩,
       ⟨100, "B", "SELL", 2, 10, 20, 28/125, 1/50, 1/250, 2472/125, none⟩] }

/-- The state reached from `mkPortfolio ["F"] 0 [(365, 100)] 10 0` by buying
1000 at NAV 10 on day 0 and again on day 31 (zero txn fee, so 100 units
each). -/
def PW : Portfolio :=
  { funds := ["F"], cash := -2000, exitLoadSchedule := [(365, 100)],
    sttSellBps := 10, txnCostBps := 0,
    lots := [("F", [⟨0, "F", 100, 10⟩, ⟨31, "F", 100, 10⟩])],
    tradeLog :=
      [⟨0, "F", "BUY", 100, 10, 1000, 0, 0, 0, -1000, none⟩,
       ⟨31, "F", "BUY", 100, 10, 1000, 0, 0, 0, -1000, none⟩] }

/-- The sale report of selling 150 units of `PW` on day 90 at NAV 12 with a
verbose trace: the day-0 lot is fully depleted, then 50 units of the day-31
lot. -/
def RW : SellRes :=
  ⟨150, 1800, 99/5, 8901/5,
    [⟨0, 100, 12, 12, 6/5, 0⟩, ⟨31, 50, 12, 6, 3/5, 0⟩]⟩

/-- The portfolio state after that sale is applied to the ledger. -/
def PW1 : Portfolio :=
  { funds := ["F"], cash := -2000, exitLoadSchedule := [(365, 100)],
    sttSellBps := 10, txnCostBps := 0,
    lots := [("F", [⟨31, "F", 50, 10⟩])],
    tradeLog :=
      [⟨0, "F", "BUY", 100, 10, 1000, 0, 0, 0, -1000, none⟩,
       ⟨31, "F", "BUY", 100, 10, 1000, 0, 0, 0, -1000, none⟩] }

/-! ### Association-list lemmas -/

lemma lookupLots_setLots (l : List (String × List Lot)) (f : String) (v : List Lot) :
    lookupLots (setLots l f v) f = some v := by
  induction l with
  | nil => simp [setLots, lookupLots, List.find?]
  | cons e rest ih =>
    by_cases he : e.1 == f
    · simp [setLots, he, lookupLots, List.find?]
    · simp only [setLots, he, if_false, Bool.false_eq_true]
      simpa [lookupLots, List.find?, he] using ih

lemma setLots_self (l : List (String × List Lot)) (f : String) (v : List Lot)
    (h : lookupLots l f = some v) : setLots l f v = l := by
  induction l with
  | nil => simp [lookupLots, List.find?] at h
  | cons e rest ih =>
    by_cases he : e.1 == f
    · simp [lookupLots, List.find?, he] at h
      have hf : e.1 = f := by simpa using he
      simp [setLots, he, ← hf, ← h]
    · simp only [lookupLots, List.find?, he] at h
      simp only [setLots, he, if_false, Bool.false_eq_true]
      rw [ih (by simpa [lookupLots] using h)]

/-! ### Elementary facts about the FIFO walk -/

lemma sellWalk_skip (sched : List (Int × ℚ)) (sttBps txnBps : ℚ) (date : Int)
    (sellNav : ℚ) (vb : Bool) (L : List Lot) (u : ℚ) (hu : u ≤ 0) :
    sellWalk sched sttBps txnBps date sellNav vb L u = ⟨L, 0, 0, 0, 0, 0, []⟩ := by
  induction L with
  | nil => rfl
  | cons lot rest ih => simp [sellWalk, hu, ih]

lemma sumUnits_append (a b : List Lot) : sumUnits (a ++ b) = sumUnits a + sumUnits b := by
  induction a with
  | nil => simp [sumUnits]
  | cons l rest ih => simp [sumUnits, List.foldr] at ih ⊢; rw [ih]; ring

lemma sumUnits_nonneg (L : List Lot) (h : ∀ l ∈ L, 0 ≤ l.units) : 0 ≤ sumUnits L := by
  induction L with
  | nil => simp [sumUnits]
  | cons l rest ih =>
    have h1 := h l (by simp)
    have h2 := ih (fun x hx => h x (by simp [hx]))
    simp only [sumUnits, List.foldr] at h2 ⊢
    linarith

end SIPBacktester

namespace SIPBacktester

lemma sellWalk_units_conserved (sched : List (Int × ℚ)) (sttBps txnBps : ℚ) (date : Int)
    (sellNav : ℚ) (vb : Bool) (L : List Lot) (u : ℚ) :
    sumUnits (sellWalk sched sttBps txnBps date sellNav vb L u).newFifo
      = sumUnits L - (sellWalk sched sttBps txnBps date sellNav vb L u).soldUnits := by
  induction L generalizing u with
  | nil => simp [sellWalk, sumUnits]
  | cons lot rest ih =>
    by_cases hu : u ≤ 0
    · simp only [sellWalk, hu, if_true]
      have := ih u
      simp only [sumUnits, List.foldr] at this ⊢
      rw [this]; ring
    · simp only [sellWalk, hu, if_false]
      have hmin : min lot.units u ≤ lot.units := min_le_left _ _
      have := ih (u - min lot.units u)
      rw [sumUnits_append, this]
      by_cases hrem : lot.units - min lot.units u > 0
      · simp only [hrem, if_true]
        simp only [sumUnits, List.foldr]
        ring
      · have hz : lot.units - min lot.units u = 0 := le_antisymm (not_lt.mp hrem) (by linarith)
        simp only [hrem, if_false]
        simp only [sumUnits, List.foldr]
        have : lot.units = min lot.units u := by linarith
        rw [← this]; ring

lemma sellWalk_gross_eq (sched : List (Int × ℚ)) (sttBps txnBps : ℚ) (date : Int)
    (sellNav : ℚ) (vb : Bool) (L : List Lot) (u : ℚ) :
    (sellWalk sched sttBps txnBps date sellNav vb L u).gross
      = (sellWalk sched sttBps txnBps date sellNav vb L u).soldUnits * sellNav := by
  induction L generalizing u with
  | nil => simp [sellWalk]
  | cons lot rest ih =>
    by_cases hu : u ≤ 0
    · simp [sellWalk, hu, ih u]
    · simp only [sellWalk, hu, if_false]
      rw [ih (u - min lot.units u)]
      ring

lemma sellWalk_sold_le (sched : List (Int × ℚ)) (sttBps txnBps : ℚ) (date : Int)
    (sellNav : ℚ) (vb : Bool) (L : List Lot) (u : ℚ) (hu : 0 ≤ u) :
    (sellWalk sched sttBps txnBps date sellNav vb L u).soldUnits ≤ u := by
  induction L generalizing u with
  | nil => simpa [sellWalk] using hu
  | cons lot rest ih =>
    by_cases h0 : u ≤ 0
    · simp only [sellWalk, h0, if_true]
      exact ih u hu
    · simp only [sellWalk, h0, if_false]
      have hmin : min lot.units u ≤ u := min_le_right _ _
      have := ih (u - min lot.units u) (by linarith)
      linarith

lemma sellWalk_sold_nonneg (sched : List (Int × ℚ)) (sttBps txnBps : ℚ) (date : Int)
    (sellNav : ℚ) (vb : Bool) (L : List Lot) (u : ℚ) (hL : ∀ l ∈ L, 0 ≤ l.units) :
    0 ≤ (sellWalk sched sttBps txnBps date sellNav vb L u).soldUnits := by
  induction L generalizing u with
  | nil => simp [sellWalk]
  | cons lot rest ih =>
    by_cases h0 : u ≤ 0
    · simp only [sellWalk, h0, if_true]
      exact ih u (fun x hx => hL x (by simp [hx]))
    · simp only [sellWalk, h0, if_false]
      have h1 : 0 ≤ lot.units := hL lot (by simp)
      have h2 : 0 ≤ min lot.units u := le_min h1 (by linarith)
      have := ih (u - min lot.units u) (fun x hx => hL x (by simp [hx]))
      linarith

lemma sellWalk_oversell (sched : List (Int × ℚ)) (sttBps txnBps : ℚ) (date : Int)
    (sellNav : ℚ) (vb : Bool) (L : List Lot) (u : ℚ)
    (hpos : ∀ l ∈ L, 0 ≤ l.units) (hlt : sumUnits L < u) :
    (sellWalk sched sttBps txnBps date sellNav vb L u).newFifo = []
      ∧ (sellWalk sched sttBps txnBps date sellNav vb L u).soldUnits = sumUnits L := by
  induction L generalizing u with
  | nil => simp [sellWalk, sumUnits]
  | cons lot rest ih =>
    have hrest : 0 ≤ sumUnits rest := sumUnits_nonneg rest (fun x hx => hpos x (by simp [hx]))
    have hlot : 0 ≤ lot.units := hpos lot (by simp)
    have hsum : sumUnits (lot :: rest) = lot.units + sumUnits rest := by
      simp [sumUnits, List.foldr]
    rw [hsum] at hlt
    have h0 : ¬ u ≤ 0 := by linarith
    have hminle : lot.units ≤ u := by linarith
    have hmin : min lot.units u = lot.units := min_eq_left hminle
    simp only [sellWalk, h0, if_false, hmin]
    have hrem : ¬ lot.units - lot.units > 0 := by simp
    have ihh := ih (u - lot.units) (fun x hx => hpos x (by simp [hx])) (by linarith)
    simp only [hrem, if_false, List.nil_append]
    refine ⟨ihh.1, ?_⟩
    rw [ihh.2, hsum]

end SIPBacktester

namespace SIPBacktester

lemma sellWalk_newFifo_dates (sched : List (Int × ℚ)) (sttBps txnBps : ℚ) (date : Int)
    (sellNav : ℚ) (vb : Bool) (L : List Lot) (u : ℚ) :
    ∀ m ∈ (sellWalk sched sttBps txnBps date sellNav vb L u).newFifo,
      m.date ∈ L.map Lot.date := by
  induction L generalizing u with
  | nil => simp [sellWalk]
  | cons lot rest ih =>
    intro m hm
    by_cases h0 : u ≤ 0
    · simp only [sellWalk, h0, if_true, List.mem_cons] at hm
      rcases hm with hm | hm
      · simp [hm]
      · simpa using Or.inr (ih u m hm)
    · simp only [sellWalk, h0, if_false, List.mem_append] at hm
      rcases hm with hm | hm
      · by_cases hrem : lot.units - min lot.units u > 0
        · simp only [hrem, if_true, List.mem_singleton] at hm
          simp [hm]
        · simp [hrem] at hm
      · simpa using Or.inr (ih (u - min lot.units u) m hm)

lemma sellWalk_log_dates (sched : List (Int × ℚ)) (sttBps txnBps : ℚ) (date : Int)
    (sellNav : ℚ) (vb : Bool) (L : List Lot) (u : ℚ) :
    ∀ line ∈ (sellWalk sched sttBps txnBps date sellNav vb L u).log,
      line.lotDate ∈ L.map Lot.date := by
  induction L generalizing u with
  | nil => simp [sellWalk]
  | cons lot rest ih =>
    intro line hline
    by_cases h0 : u ≤ 0
    · simp only [sellWalk, h0, if_true] at hline
      simpa using Or.inr (ih u line hline)
    · simp only [sellWalk, h0, if_false, List.mem_append] at hline
      rcases hline with hl | hl
      · rcases vb with _ | _
        · simp at hl
        · simp only [if_true] at hl
          simp only [List.mem_singleton] at hl
          simp [hl]
      · simpa using Or.inr (ih (u - min lot.units u) line hl)

lemma sellWalk_fifo_order (sched : List (Int × ℚ)) (sttBps txnBps : ℚ) (date : Int)
    (sellNav : ℚ) (vb : Bool) (L : List Lot) (u : ℚ)
    (hsort : L.Pairwise (fun a b => a.date < b.date)) :
    (sellWalk sched sttBps txnBps date sellNav vb L u).log.Pairwise
        (fun a b => a.lotDate < b.lotDate)
      ∧ ∀ line ∈ (sellWalk sched sttBps txnBps date sellNav vb L u).log,
          ∀ m ∈ (sellWalk sched sttBps txnBps date sellNav vb L u).newFifo,
            line.lotDate ≤ m.date := by
  induction L generalizing u with
  | nil => simp [sellWalk]
  | cons lot rest ih =>
    rcases List.pairwise_cons.mp hsort with ⟨hhead, htail⟩
    by_cases h0 : u ≤ 0
    · rw [sellWalk_skip sched sttBps txnBps date sellNav vb _ u h0]
      simp
    · by_cases hrem : lot.units - min lot.units u > 0
      · -- the head lot is only partially depleted, so units_left hits 0
        have husel : min lot.units u = u := by
          rcases le_total lot.units u with h | h
          · exfalso; rw [min_eq_left h] at hrem; linarith
          · exact min_eq_right h
        have hz : u - min lot.units u ≤ 0 := by rw [husel]; linarith
        simp only [sellWalk, h0, if_false, hrem, if_true]
        rw [sellWalk_skip sched sttBps txnBps date sellNav vb rest _ hz]
        constructor
        · rcases vb with _ | _ <;> simp
        · intro line hline m hm
          rcases vb with _ | _
          · simp at hline
          · simp only [if_true, List.append_nil, List.mem_singleton] at hline
            subst hline
            simp only [List.cons_append, List.nil_append, List.mem_cons] at hm
            rcases hm with hm | hm
            · simp [hm]
            · exact le_of_lt (hhead m hm)
      · -- the head lot is fully depleted
        have ihh := ih (u - min lot.units u) htail
        simp only [sellWalk, h0, if_false, hrem, if_false, List.nil_append]
        constructor
        · rcases vb with _ | _
          · simpa using ihh.1
          · simp only [if_true, List.singleton_append]
            refine List.pairwise_cons.mpr ⟨?_, ihh.1⟩
            intro line hline
            have hmem := sellWalk_log_dates sched sttBps txnBps date sellNav true rest
              (u - min lot.units u) line hline
            simp only [List.mem_map] at hmem
            rcases hmem with ⟨l2, hl2, hdate⟩
            have := hhead l2 hl2
            simpa [hdate] using this
        · intro line hline m hm
          have hmfd := sellWalk_newFifo_dates sched sttBps txnBps date sellNav vb rest
            (u - min lot.units u) m hm
          simp only [List.mem_map] at hmfd
          rcases hmfd with ⟨l2, hl2, hdate⟩
          rcases vb with _ | _
          · simp only [if_neg (by simp : ¬ (false = true)), List.nil_append] at hline
            exact ihh.2 line hline m hm
          · simp only [if_true, List.singleton_append, List.mem_cons] at hline
            rcases hline with hl | hl
            · subst hl
              have := hhead l2 hl2
              simp only []
              rw [← hdate]
              exact le_of_lt this
            · exact ihh.2 line hl m hm

end SIPBacktester

namespace SIPBacktester

lemma lookupLots_append (l1 l2 : List (String × List Lot)) (f : String) :
    lookupLots (l1 ++ l2) f
      = ((lookupLots l1 f).rec (lookupLots l2 f) (fun v => some v) : Option (List Lot)) := by
  induction l1 with
  | nil => simp [lookupLots, List.find?]
  | cons e rest ih =>
    by_cases he : e.1 == f
    · simp [lookupLots, List.find?, he]
    · simpa [lookupLots, List.find?, he] using ih

lemma lookupLots_setdefault_same (acc : List (String × List Lot)) (f : String) :
    lookupLots (setdefaultLots acc f) f
      = ((lookupLots acc f).rec (some []) (fun v => some v) : Option (List Lot)) := by
  unfold setdefaultLots
  by_cases h : (acc.find? (fun e => e.1 == f)).isSome
  · rcases Option.isSome_iff_exists.mp h with ⟨e, he⟩
    simp [h, lookupLots, he]
  · have hnone : acc.find? (fun e => e.1 == f) = none := by
      cases hf : acc.find? (fun e => e.1 == f)
      · rfl
      · rw [hf] at h; simp at h
    simp only [h, if_false, Bool.false_eq_true]
    rw [lookupLots_append]
    simp [lookupLots, hnone, List.find?]

lemma lookupLots_setdefault_other (acc : List (String × List Lot)) (f g : String)
    (hne : f ≠ g) : lookupLots (setdefaultLots acc g) f = lookupLots acc f := by
  unfold setdefaultLots
  by_cases h : (acc.find? (fun e => e.1 == g)).isSome
  · simp [h]
  · simp only [h, if_false, Bool.false_eq_true]
    rw [lookupLots_append]
    have : lookupLots [(g, ([] : List Lot))] f = none := by
      simp [lookupLots, List.find?, (by simpa using Ne.symm hne : ¬ (g == f) = true)]
    rw [this]
    cases lookupLots acc f <;> rfl

lemma initLots_lookup (f : String) : ∀ (fs : List String) (acc : List (String × List Lot)),
    lookupLots (initLots fs acc) f
      = ((lookupLots acc f).rec (if f ∈ fs then some [] else none)
          (fun v => some v) : Option (List Lot)) := by
  intro fs
  induction fs with
  | nil =>
    intro acc
    simp only [initLots, List.not_mem_nil, if_false]
    cases lookupLots acc f <;> rfl
  | cons g gs ih =>
    intro acc
    simp only [initLots]
    rw [ih]
    by_cases hfg : f = g
    · subst hfg
      rw [lookupLots_setdefault_same]
      cases lookupLots acc f <;> simp
    · rw [lookupLots_setdefault_other acc f g hfg]
      cases lookupLots acc f <;> simp [hfg]

lemma mkPortfolio_lookup (funds : List String) (cash : ℚ) (sched : List (Int × ℚ))
    (sttBps txnBps : ℚ) (f : String) :
    lookupLots (mkPortfolio funds cash sched sttBps txnBps).lots f
      = if f ∈ funds then some [] else none := by
  show lookupLots (initLots funds []) f = _
  rw [initLots_lookup]
  simp [lookupLots, List.find?]

lemma buy_lots_cases (p : Portfolio) (date : Int) (fund : String) (c nav : ℚ)
    (q : Portfolio) (h : buy p date fund c nav = some q) :
    q.lots = p.lots ∨ ∃ fifo u, lookupLots p.lots fund = some fifo ∧ 
      q.lots = setLots p.lots fund (fifo ++ [Lot.mk date fund u nav]) := by
  unfold buy at h
  by_cases hc : c ≤ 0
  · rw [if_pos hc] at h
    left; injection h with h; rw [← h]
  · rw [if_neg hc] at h
    by_cases hnav : nav = 0
    · rw [if_pos hnav] at h; exact Option.noConfusion h
    · rw [if_neg hnav] at h
      by_cases hu : (c - c * (p.txnCostBps / 10000)) / nav ≤ 0
      · rw [if_pos hu] at h
        left; injection h with h; rw [← h]
      · rw [if_neg hu] at h
        cases hf : lookupLots p.lots fund with
        | none => rw [hf] at h; exact absurd h (by simp)
        | some fifo =>
          rw [hf] at h
          injection h with h
          right
          exact ⟨fifo, (c - c * (p.txnCostBps / 10000)) / nav, rfl, by rw [← h]⟩

lemma applyBuys_sorted (fund : String) : ∀ (ops : List BuyOp) (p p1 : Portfolio),
    ops.Pairwise (fun a b => a.date < b.date) →
    applyBuys fund p ops = some p1 →
    (∀ L, lookupLots p.lots fund = some L →
      L.Pairwise (fun a b => a.date < b.date) ∧ ∀ l ∈ L, ∀ b ∈ ops, l.date < b.date) →
    ∀ L1, lookupLots p1.lots fund = some L1 →
      L1.Pairwise (fun a b => a.date < b.date) := by
  intro ops
  induction ops with
  | nil =>
    intro p p1 _ happ hinv L1 hL1
    simp only [applyBuys] at happ
    injection happ with happ
    subst happ
    exact (hinv L1 hL1).1
  | cons b bs ih =>
    intro p p1 hch happ hinv L1 hL1
    rcases List.pairwise_cons.mp hch with ⟨hb, hbs⟩
    simp only [applyBuys] at happ
    cases hbuy : buy p b.date fund b.cash b.nav with
    | none => rw [hbuy] at happ; exact absurd happ (by simp)
    | some q =>
      rw [hbuy] at happ
      simp only [Option.some_bind] at happ
      refine ih q p1 hbs happ ?_ L1 hL1
      rcases buy_lots_cases p b.date fund b.cash b.nav q hbuy with hsame | ⟨fifo, u, hf, hset⟩
      · intro L hL
        rw [hsame] at hL
        rcases hinv L hL with ⟨h1, h2⟩
        exact ⟨h1, fun l hl b2 hb2 => h2 l hl b2 (by simp [hb2])⟩
      · intro L hL
        rw [hset, lookupLots_setLots] at hL
        injection hL with hL
        subst hL
        rcases hinv fifo hf with ⟨h1, h2⟩
        constructor
        · rw [List.pairwise_append]
          refine ⟨h1, by simp, ?_⟩
          intro l hl m hm
          simp only [List.mem_singleton] at hm
          subst hm
          exact h2 l hl b (by simp)
        · intro l hl b2 hb2
          rcases List.mem_append.mp hl with hl | hl
          · exact h2 l hl b2 (by simp [hb2])
          · simp only [List.mem_singleton] at hl
            subst hl
            exact hb b2 hb2

end SIPBacktester

namespace SIPBacktester

lemma sell_appended (p : Portfolio) (date : Int) (fund : String) (u nav : ℚ) (vb : Bool)
    (p1 : Portfolio) (h : sell p date fund u nav vb = some p1)
    (hnav : 0 < nav) (hu : 0 ≤ u) :
    ∃ ts, p1.tradeLog = p.tradeLog ++ ts
      ∧ ∀ t ∈ ts, t.action = "SELL" ∧ t.grossValue ≤ u * nav := by
  simp only [sell, applyCostsOnSell] at h
  cases hf : lookupLots p.lots fund with
  | none => rw [hf] at h; exact Option.noConfusion h
  | some fifo =>
    rw [hf] at h
    simp only [Option.map_some] at h
    injection h with h
    simp only [] at h
    set r := sellWalk p.exitLoadSchedule p.sttSellBps p.txnCostBps date nav vb fifo u with hr
    by_cases hsold : r.soldUnits ≤ 0
    · rw [if_pos hsold] at h
      exact ⟨[], by rw [← h, List.append_nil], by simp⟩
    · rw [if_neg hsold] at h
      refine ⟨_, by rw [← h], ?_⟩
      intro t ht
      simp only [List.mem_singleton] at ht
      subst ht
      refine ⟨rfl, ?_⟩
      show r.gross ≤ u * nav
      rw [sellWalk_gross_eq]
      have hle : r.soldUnits ≤ u := sellWalk_sold_le _ _ _ _ _ _ _ _ hu
      exact mul_le_mul_of_nonneg_right hle (le_of_lt hnav)

lemma buy_appended (p : Portfolio) (date : Int) (fund : String) (c nav : ℚ)
    (q : Portfolio) (h : buy p date fund c nav = some q) :
    ∃ ts, q.tradeLog = p.tradeLog ++ ts ∧ ∀ t ∈ ts, t.action = "BUY" := by
  unfold buy at h
  by_cases hc : c ≤ 0
  · rw [if_pos hc] at h
    injection h with h
    exact ⟨[], by rw [← h, List.append_nil], by simp⟩
  · rw [if_neg hc] at h
    by_cases hnav : nav = 0
    · rw [if_pos hnav] at h; exact Option.noConfusion h
    · rw [if_neg hnav] at h
      by_cases hun : (c - c * (p.txnCostBps / 10000)) / nav ≤ 0
      · rw [if_pos hun] at h
        injection h with h
        exact ⟨[], by rw [← h, List.append_nil], by simp⟩
      · rw [if_neg hun] at h
        cases hf : lookupLots p.lots fund with
        | none => rw [hf] at h; exact Option.noConfusion h
        | some fifo =>
          rw [hf] at h
          injection h with h
          refine ⟨_, by rw [← h], ?_⟩
          intro t ht
          simp only [List.mem_singleton] at ht
          subst ht
          rfl

lemma rebalanceSells_appended (date : Int) (navsRow delta : String → ℚ) (capVal : ℚ)
    (hcap : 0 ≤ capVal) (hnavs : ∀ f, 0 < navsRow f) :
    ∀ (fs : List String) (p p1 : Portfolio),
      rebalanceSells date navsRow delta capVal p fs = some p1 →
      ∃ ts, p1.tradeLog = p.tradeLog ++ ts
        ∧ ∀ t ∈ ts, t.action = "SELL" ∧ t.grossValue ≤ capVal := by
  intro fs
  induction fs with
  | nil =>
    intro p p1 h
    simp only [rebalanceSells] at h
    injection h with h
    exact ⟨[], by rw [← h, List.append_nil], by simp⟩
  | cons f fs ih =>
    intro p p1 h
    simp only [rebalanceSells] at h
    by_cases hd : delta f < 0
    · rw [if_pos hd] at h
      have hnz : ¬ navsRow f = 0 := ne_of_gt (hnavs f)
      rw [if_neg hnz] at h
      cases hsell : sell p date f (min (-delta f) capVal / navsRow f) (navsRow f) false with
      | none => rw [hsell] at h; exact Option.noConfusion h
      | some q =>
        rw [hsell] at h
        simp only [Option.some_bind] at h
        have hv0 : 0 ≤ min (-delta f) capVal := le_min (by linarith) hcap
        have hu0 : 0 ≤ min (-delta f) capVal / navsRow f :=
          div_nonneg hv0 (le_of_lt (hnavs f))
        rcases sell_appended p date f _ _ false q hsell (hnavs f) hu0 with ⟨ts1, hts1, hb1⟩
        rcases ih q p1 h with ⟨ts2, hts2, hb2⟩
        refine ⟨ts1 ++ ts2, by rw [hts2, hts1, List.append_assoc], ?_⟩
        intro t ht
        rcases List.mem_append.mp ht with ht | ht
        · rcases hb1 t ht with ⟨ha, hg⟩
          refine ⟨ha, le_trans hg ?_⟩
          rw [div_mul_cancel₀ _ hnz]
          exact min_le_right _ _
        · exact hb2 t ht
    · rw [if_neg hd] at h
      exact ih p p1 h

lemma rebalanceBuys_appended (date : Int) (navsRow delta : String → ℚ) :
    ∀ (fs : List String) (p : Portfolio) (cashAvail : ℚ) (p1 : Portfolio),
      rebalanceBuys date navsRow delta p cashAvail fs = some p1 →
      ∃ ts, p1.tradeLog = p.tradeLog ++ ts ∧ ∀ t ∈ ts, t.action = "BUY" := by
  intro fs
  induction fs with
  | nil =>
    intro p cashAvail p1 h
    simp only [rebalanceBuys] at h
    injection h with h
    exact ⟨[], by rw [← h, List.append_nil], by simp⟩
  | cons f fs ih =>
    intro p cashAvail p1 h
    simp only [rebalanceBuys] at h
    by_cases hd : delta f > 0 ∧ cashAvail > 0
    · rw [if_pos hd] at h
      cases hbuy : buy p date f (min (delta f) cashAvail) (navsRow f) with
      | none => rw [hbuy] at h; exact Option.noConfusion h
      | some q =>
        rw [hbuy] at h
        simp only [Option.some_bind] at h
        rcases buy_appended p date f _ _ q hbuy with ⟨ts1, hts1, hb1⟩
        rcases ih q _ p1 h with ⟨ts2, hts2, hb2⟩
        refine ⟨ts1 ++ ts2, by rw [hts2, hts1, List.append_assoc], ?_⟩
        intro t ht
        rcases List.mem_append.mp ht with ht | ht
        · exact hb1 t ht
        · exact hb2 t ht
    · rw [if_neg hd] at h
      exact ih p cashAvail p1 h

end SIPBacktester

namespace SIPBacktester

/-- C7: for any holding period D and any exit-load schedule, the rate applied
is the bps of the FIRST tier (in the order given, never sorted) whose
max-days threshold is at least D, and 0 bps when D exceeds every threshold. -/
theorem exit_load_first_matching_tier (sched : List (Int × ℚ)) (d : Int) :
    exitBps sched d = ((sched.find? (fun t => decide (d ≤ t.1))).map Prod.snd).getD 0 := by
  induction sched with
  | nil => rfl
  | cons t rest ih =>
    by_cases h : d ≤ t.1
    · simp [exitBps, List.find?, h]
    · simp [exitBps, List.find?, h, ih]

/-- C9: selling against an empty ledger, or buying with non-positive cash,
leaves the entire portfolio state (cash, every ledger, trade log) unchanged
and appends no trade. -/
theorem noop_empty_sell_and_nonpositive_buy (p : Portfolio) (date : Int) (fund : String)
    (u nav c bnav : ℚ) (vb : Bool) :
    (lookupLots p.lots fund = some [] → sell p date fund u nav vb = some p)
      ∧ (c ≤ 0 → buy p date fund c bnav = some p) := by
  constructor
  · intro hf
    simp only [sell, applyCostsOnSell, hf, Option.map_some]
    have hwalk : sellWalk p.exitLoadSchedule p.sttSellBps p.txnCostBps date nav vb [] u
        = ⟨[], 0, 0, 0, 0, 0, []⟩ := rfl
    simp only [hwalk]
    rw [setLots_self p.lots fund [] hf]
    rfl
  · intro hc
    unfold buy
    rw [if_pos hc]

/-- C9 witness: on a freshly constructed one-fund portfolio (empty ledger),
an immediate sell and a negative-cash buy both return the state unchanged. -/
theorem noop_empty_sell_and_nonpositive_buy_witness :
    (sell (mkPortfolio ["F"] 100 [(365, 100)] 10 2) 1 "F" 3 10 false
        = some (mkPortfolio ["F"] 100 [(365, 100)] 10 2))
      ∧ (buy (mkPortfolio ["F"] 100 [(365, 100)] 10 2) 1 "F" (-5) 10
        = some (mkPortfolio ["F"] 100 [(365, 100)] 10 2)) := by
  have h := noop_empty_sell_and_nonpositive_buy (mkPortfolio ["F"] 100 [(365, 100)] 10 2)
    1 "F" 3 10 (-5) 10 false
  exact ⟨h.1 (by rfl), h.2 (by norm_num)⟩

/-- C8 counterexample: a buy with positive cash at price 0 is not a clean
no-op; the computation `net_cash / nav` raises a float ZeroDivisionError
(modelled here by `none`). -/
theorem buy_zero_price_counterexample : buy P1 5 "F" 100 0 = none := by
  rfl

/-- C8 (amended): a buy with cashToSpend > 0 whose computed units come out
≤ 0 with a NONZERO price (negative price, or fee rate ≥ 100%) is a clean
no-op — no lot, no cash deduction, no trade, no failure; a zero price
instead raises a division error rather than no-op. -/
theorem buy_nonpositive_units_noop (p : Portfolio) (date : Int) (fund : String)
    (c nav : ℚ) (hc : 0 < c) (hnav : nav ≠ 0)
    (hu : (c - c * (p.txnCostBps / 10000)) / nav ≤ 0) :
    buy p date fund c nav = some p := by
  unfold buy
  rw [if_neg (not_le.mpr hc), if_neg hnav, if_pos hu]

/-- C8 witness: buying 100 of cash at price −1 no-ops. -/
theorem buy_nonpositive_units_noop_witness : buy P1 5 "F" 100 (-1) = some P1 :=
  buy_nonpositive_units_noop P1 5 "F" 100 (-1) (by norm_num) (by norm_num) (by
    show (100 - 100 * ((2 : ℚ) / 10000)) / (-1) ≤ 0
    norm_num)

/-- C5: a buy with positive cash and positive price that creates a lot
deducts exactly the full cashToSpend from cash (not the fee-netted amount),
appends the new lot, and records a BUY trade with net cash flow
−cashToSpend. -/
theorem buy_cash_conservation (p : Portfolio) (date : Int) (fund : String)
    (c nav : ℚ) (fifo : List Lot)
    (hc : 0 < c) (hnav : 0 < nav)
    (hu : 0 < (c - c * (p.txnCostBps / 10000)) / nav)
    (hf : lookupLots p.lots fund = some fifo) :
    ∃ p1, buy p date fund c nav = some p1 ∧ p1.cash = p.cash - c
      ∧ lookupLots p1.lots fund
          = some (fifo ++ [Lot.mk date fund ((c - c * (p.txnCostBps / 10000)) / nav) nav])
      ∧ ∃ t, p1.tradeLog = p.tradeLog ++ [t] ∧ t.netCashFlow = -c ∧ t.action = "BUY" := by
  unfold buy
  rw [if_neg (not_le.mpr hc), if_neg (ne_of_gt hnav), if_neg (not_le.mpr hu), hf]
  exact ⟨_, rfl, rfl, by rw [lookupLots_setLots], ⟨_, rfl, rfl, rfl⟩⟩

/-- C5 witness: buying 100 at price 10 on the concrete portfolio deducts
exactly 100 of cash. -/
theorem buy_cash_conservation_witness :
    ∃ p1, buy P1 7 "F" 100 10 = some p1 ∧ p1.cash = P1.cash - 100
      ∧ lookupLots p1.lots "F"
          = some ([⟨0, "F", 10, 10⟩] ++
              [Lot.mk 7 "F" ((100 - 100 * ((P1.txnCostBps) / 10000)) / 10) 10])
      ∧ ∃ t, p1.tradeLog = P1.tradeLog ++ [t] ∧ t.netCashFlow = -100 ∧ t.action = "BUY" :=
  buy_cash_conservation P1 7 "F" 100 10 [⟨0, "F", 10, 10⟩] (by norm_num) (by norm_num)
    (by show (0 : ℚ) < (100 - 100 * ((2 : ℚ) / 10000)) / 10; norm_num) rfl

/-- C10 counterexample: a buy on an identifier absent from the construction
funds list does NOT always fail with a key-lookup error — with non-positive
cash the no-op guard returns before the ledger access. -/
theorem buy_unknown_fund_silent_counterexample :
    ¬ ("G" ∈ P1.funds) ∧ buy P1 5 "G" 0 10 = some P1 := by
  exact ⟨by decide, rfl⟩

/-- C10 (amended): for an identifier with no ledger entry, positionUnits and
sell always fail with a key-lookup error, and buy fails with a key-lookup
error whenever it reaches the ledger append (positive cash and positive
computed units); a buy stopped by its no-op guards returns silently without
creating a ledger; construction gives exactly the construction-time funds
initially empty ledgers. -/
theorem unknown_fund_key_error (p : Portfolio) (date : Int) (fund : String)
    (u nav c bnav : ℚ) (vb : Bool)
    (hf : lookupLots p.lots fund = none) :
    positionUnits p fund = none
      ∧ sell p date fund u nav vb = none
      ∧ (0 < c → bnav ≠ 0 → 0 < (c - c * (p.txnCostBps / 10000)) / bnav →
          buy p date fund c bnav = none)
      ∧ (∀ (funds : List String) (cash0 : ℚ) (sched : List (Int × ℚ)) (sttBps txnBps : ℚ),
          lookupLots (mkPortfolio funds cash0 sched sttBps txnBps).lots fund
            = if fund ∈ funds then some [] else none) := by
  refine ⟨?_, ?_, ?_, ?_⟩
  · simp [positionUnits, hf]
  · simp [sell, applyCostsOnSell, hf]
  · intro hc hnav hu
    unfold buy
    rw [if_neg (not_le.mpr hc), if_neg hnav, if_neg (not_le.mpr hu), hf]
  · intro funds cash0 sched sttBps txnBps
    exact mkPortfolio_lookup funds cash0 sched sttBps txnBps fund

/-- C10 witness: on the concrete one-fund portfolio, the unknown identifier
"G" makes positionUnits, sell, and a lot-creating buy all fail, while a
two-fund construction gives "G" no ledger. -/
theorem unknown_fund_key_error_witness :
    positionUnits P1 "G" = none
      ∧ sell P1 1 "G" 1 1 false = none
      ∧ buy P1 5 "G" 100 10 = none
      ∧ lookupLots (mkPortfolio ["A", "B"] 0 [] 10 2).lots "G" = none := by
  have h := unknown_fund_key_error P1 1 "G" 1 1 100 10 false rfl
  refine ⟨h.1, h.2.1, ?_, ?_⟩
  · exact h.2.2.1 (by norm_num) (by norm_num)
      (by show (0 : ℚ) < (100 - 100 * ((2 : ℚ) / 10000)) / 10; norm_num)
  · have h4 := h.2.2.2 ["A", "B"] 0 [] 10 2
    simpa using h4

/-- C4: at the failing input (one lot of 10 units bought at NAV 10 on day 0,
sold 5 units on day 100 at NAV 12, schedule [(365, 100 bps)], STT 10 bps,
txn 2 bps), the recorded SELL trade's exit-load field equals the sum of ALL
three cost aggregates (3/5 + 3/50 + 3/250 = 84/125), not the exit-load
aggregate 3/5 computed by the FIFO walk; the STT and txn fields do hold
their own aggregates. -/
theorem sell_trade_exit_load_field_mixes_costs :
    (sell P1 100 "F" 5 12 false).map
        (fun q => q.tradeLog.map (fun t => (t.exitLoad, t.stt, t.txnCost)))
      = some [(84/125, 3/50, 3/250)]
    ∧ (sellWalk P1.exitLoadSchedule P1.sttSellBps P1.txnCostBps 100 12 false
        [⟨0, "F", 10, 10⟩] 5).exitTotal = 3/5
    ∧ (sellWalk P1.exitLoadSchedule P1.sttSellBps P1.txnCostBps 100 12 false
        [⟨0, "F", 10, 10⟩] 5).sttTotal = 3/50
    ∧ (sellWalk P1.exitLoadSchedule P1.sttSellBps P1.txnCostBps 100 12 false
        [⟨0, "F", 10, 10⟩] 5).txnTotal = 3/250
    ∧ (84/125 : ℚ) = 3/5 + 3/50 + 3/250
    ∧ (84/125 : ℚ) ≠ 3/5 := by
  refine ⟨?_, ?_, ?_, ?_, by norm_num, by norm_num⟩
  · norm_num [sell, applyCostsOnSell, sellWalk, lookupLots, List.find?, P1, exitBps,
      min_def, setLots]
  · norm_num [sellWalk, P1, exitBps, min_def]
  · norm_num [sellWalk, P1, min_def]
  · norm_num [sellWalk, P1, min_def]

end SIPBacktester

namespace SIPBacktester

/-- C2: unit conservation on sell — for every `_apply_costs_on_sell` call,
the fund's remaining lot units afterwards equal the previous total minus the
sold units reported in the sale result. -/
theorem sell_unit_conservation (p : Portfolio) (date : Int) (fund : String)
    (u nav : ℚ) (vb : Bool) (r : SellRes) (p1 : Portfolio) (fifo fifo1 : List Lot)
    (h : applyCostsOnSell p date fund u nav vb = some (r, p1))
    (hf : lookupLots p.lots fund = some fifo)
    (hf1 : lookupLots p1.lots fund = some fifo1) :
    sumUnits fifo1 = sumUnits fifo - r.soldUnits := by
  simp only [applyCostsOnSell, hf] at h
  injection h with h
  rw [Prod.ext_iff] at h
  obtain ⟨h1, h2⟩ := h
  subst h1 h2
  simp only [] at hf1
  rw [lookupLots_setLots] at hf1
  injection hf1 with hf1
  subst hf1
  exact sellWalk_units_conserved p.exitLoadSchedule p.sttSellBps p.txnCostBps date nav vb fifo u

/-- C2 witness: selling 5 of 10 units leaves 5 units (10 − 5). -/
theorem sell_unit_conservation_witness :
    sumUnits [Lot.mk 0 "F" 5 10] = sumUnits [Lot.mk 0 "F" 10 10] - 5 := by
  have h : applyCostsOnSell P1 100 "F" 5 12 false
      = some (⟨5, 60, 84/125, 7416/125, []⟩,
          { funds := ["F"], cash := 0, exitLoadSchedule := [(365, 100)],
            sttSellBps := 10, txnCostBps := 2,
            lots := [("F", [⟨0, "F", 5, 10⟩])], tradeLog := [] }) := by
    norm_num [applyCostsOnSell, sellWalk, lookupLots, List.find?, P1, exitBps,
      min_def, setLots]
  have h2 := sell_unit_conservation P1 100 "F" 5 12 false _ _
    [Lot.mk 0 "F" 10 10] [Lot.mk 0 "F" 5 10] h rfl rfl
  simpa using h2

/-- C6: an oversized sell request is clamped to the available inventory —
the entire ledger is depleted, exactly the previously available units are
sold (never more), that quantity is what the recorded SELL trade reports,
and the call returns successfully. -/
theorem oversell_sells_available (p : Portfolio) (date : Int) (fund : String)
    (u nav : ℚ) (vb : Bool) (fifo : List Lot)
    (hf : lookupLots p.lots fund = some fifo)
    (hpos : ∀ l ∈ fifo, 0 ≤ l.units)
    (hlt : sumUnits fifo < u) (hsum : 0 < sumUnits fifo) :
    ∃ p1, sell p date fund u nav vb = some p1
      ∧ lookupLots p1.lots fund = some []
      ∧ ∃ t, p1.tradeLog = p.tradeLog ++ [t] ∧ t.action = "SELL"
          ∧ t.units = sumUnits fifo := by
  obtain ⟨hnf, hsold⟩ := sellWalk_oversell p.exitLoadSchedule p.sttSellBps p.txnCostBps
    date nav vb fifo u hpos hlt
  have hns : ¬ (sellWalk p.exitLoadSchedule p.sttSellBps p.txnCostBps date nav vb
      fifo u).soldUnits ≤ 0 := by
    rw [hsold]; exact not_le.mpr hsum
  simp only [sell, applyCostsOnSell, hf, Option.map_some', hns, if_false]
  refine ⟨_, rfl, ?_, _, rfl, rfl, hsold⟩
  rw [hnf, lookupLots_setLots]

/-- C6 witness: requesting 15 units when only 10 are available sells exactly
10 and empties the ledger. -/
theorem oversell_sells_available_witness :
    ∃ p1, sell P1 50 "F" 15 12 false = some p1
      ∧ lookupLots p1.lots "F" = some []
      ∧ ∃ t, p1.tradeLog = P1.tradeLog ++ [t] ∧ t.action = "SELL"
          ∧ t.units = sumUnits [Lot.mk 0 "F" 10 10] :=
  oversell_sells_available P1 50 "F" 15 12 false [Lot.mk 0 "F" 10 10] rfl
    (by decide) (by norm_num [sumUnits]) (by norm_num [sumUnits])

end SIPBacktester

namespace SIPBacktester

/-- C3 counterexample: on `P2` (total value 200) with all-zero targets and a
10% turnover cap, one rebalance call sells gross 20 from EACH of the two
sell candidates — an aggregate of 40, exceeding totalValue × turnoverCap
= 20. The cap is applied per holding, not to the aggregate, and no
first-come-first-served allowance is decremented. -/
theorem rebalance_aggregate_cap_counterexample :
    (rebalance P2 100 (fun _ => 10) (fun _ => 0) (1/10)).map
        (fun q => q.tradeLog.map (fun t => (t.action, t.grossValue)))
      = some [("SELL", 20), ("SELL", 20)]
    ∧ totalValue P2 (fun _ => 10) = some 200
    ∧ ¬ ((20 : ℚ) + 20 ≤ 200 * (1/10)) := by
  refine ⟨?_, ?_, by norm_num⟩
  · norm_num [rebalance, rebalanceSells, rebalanceBuys, totalValue, currVals, getOr0,
      positionUnits, positionValue, sell, applyCostsOnSell, sellWalk, lookupLots,
      List.find?, P2, exitBps, min_def, setLots, sumUnits, List.foldlM, List.mapM,
      List.mapM.loop, Option.map_some',
      (show (("A" : String) == "B") = false from by decide),
      (show (("B" : String) == "A") = false from by decide),
      (show (("A" : String) == "A") = true from by decide),
      (show (("B" : String) == "B") = true from by decide)]
  · norm_num [totalValue, positionUnits, positionValue, lookupLots, List.find?, P2,
      sumUnits, List.foldlM,
      (show (("A" : String) == "B") = false from by decide),
      (show (("A" : String) == "A") = true from by decide),
      (show (("B" : String) == "B") = true from by decide)]

/-- C3 (amended): the turnover cap in a rebalance call is per holding, not
aggregate: every SELL trade appended by the call has gross value at most
totalValue × turnoverCap, with no shared allowance across the sell
candidates (each candidate may sell up to the full cap). -/
theorem rebalance_per_holding_cap (p : Portfolio) (date : Int)
    (navsRow targetW : String → ℚ) (cap tv : ℚ) (p1 : Portfolio)
    (htv : totalValue p navsRow = some tv)
    (hcap : 0 ≤ tv * cap)
    (hnavs : ∀ f, 0 < navsRow f)
    (h : rebalance p date navsRow targetW cap = some p1) :
    ∃ ts, p1.tradeLog = p.tradeLog ++ ts
      ∧ ∀ t ∈ ts, t.action = "SELL" → t.grossValue ≤ tv * cap := by
  simp only [rebalance, htv, Option.some_bind] at h
  cases hcv : currVals p navsRow tv with
  | none => rw [hcv] at h; exact Option.noConfusion h
  | some cv =>
    rw [hcv] at h
    simp only [Option.some_bind] at h
    cases hs : rebalanceSells date navsRow
        (fun f => targetW f * tv - getOr0 cv f) (tv * cap) p p.funds with
    | none => rw [hs] at h; exact Option.noConfusion h
    | some pm =>
      rw [hs] at h
      simp only [Option.some_bind] at h
      rcases rebalanceSells_appended date navsRow
          (fun f => targetW f * tv - getOr0 cv f) (tv * cap) hcap hnavs
          p.funds p pm hs with ⟨ts1, hts1, hb1⟩
      rcases rebalanceBuys_appended date navsRow
          (fun f => targetW f * tv - getOr0 cv f) p.funds pm _ p1 h with ⟨ts2, hts2, hb2⟩
      refine ⟨ts1 ++ ts2, by rw [hts2, hts1, List.append_assoc], ?_⟩
      intro t ht hta
      rcases List.mem_append.mp ht with ht | ht
      · exact (hb1 t ht).2
      · have hbuy : t.action = "BUY" := hb2 t ht
        rw [hta] at hbuy
        exact absurd hbuy (by decide)

/-- C3 witness: on the concrete capped rebalance, every appended SELL trade
has gross value at most 200 × (1/10) = 20. -/
theorem rebalance_per_holding_cap_witness :
    0 ≤ (200 : ℚ) * (1/10)
      ∧ ∃ ts, P2after.tradeLog = P2.tradeLog ++ ts
          ∧ ∀ t ∈ ts, t.action = "SELL" → t.grossValue ≤ 200 * (1/10) := by
  refine ⟨by norm_num, ?_⟩
  refine rebalance_per_holding_cap P2 100 (fun _ => 10) (fun _ => 0) (1/10) 200 P2after
    ?_ (by norm_num) (fun f => by norm_num) ?_
  · norm_num [totalValue, positionUnits, positionValue, lookupLots, List.find?, P2,
      sumUnits, List.foldlM,
      (show (("A" : String) == "B") = false from by decide),
      (show (("A" : String) == "A") = true from by decide),
      (show (("B" : String) == "B") = true from by decide)]
  · norm_num [rebalance, rebalanceSells, rebalanceBuys, totalValue, currVals, getOr0,
      positionUnits, positionValue, sell, applyCostsOnSell, sellWalk, lookupLots,
      List.find?, P2, P2after, exitBps, min_def, setLots, sumUnits, List.foldlM,
      List.mapM, List.mapM.loop, Option.map_some',
      (show (("A" : String) == "B") = false from by decide),
      (show (("B" : String) == "A") = false from by decide),
      (show (("A" : String) == "A") = true from by decide),
      (show (("B" : String) == "B") = true from by decide)]

end SIPBacktester

namespace SIPBacktester

/-- C1: FIFO depletion order. For any portfolio reachable by a sequence of
buys at strictly ascending timestamps on one holding, a subsequent partial
sell depletes lots strictly in ascending acquisition-date order: the
verbose trace lists acquisition dates in strictly ascending order, and a
slice is taken from a lot only once every remaining (earlier-dated) lot has
been fully depleted — every lot still in the ledger after the sell is dated
no earlier than any traced slice. -/
theorem fifo_depletion_order
    (funds : List String) (cash0 : ℚ) (sched : List (Int × ℚ)) (sttBps txnBps : ℚ)
    (fund : String) (ops : List BuyOp) (p : Portfolio)
    (date : Int) (u nav : ℚ) (r : SellRes) (p1 : Portfolio) (fifo fifo1 : List Lot)
    (hops : ops.Pairwise (fun a b => a.date < b.date))
    (hreach : applyBuys fund (mkPortfolio funds cash0 sched sttBps txnBps) ops = some p)
    (hf : lookupLots p.lots fund = some fifo)
    (h : applyCostsOnSell p date fund u nav true = some (r, p1))
    (hf1 : lookupLots p1.lots fund = some fifo1) :
    r.log.Pairwise (fun a b => a.lotDate < b.lotDate)
      ∧ ∀ line ∈ r.log, ∀ m ∈ fifo1, line.lotDate ≤ m.date := by
  have hsorted : fifo.Pairwise (fun a b => a.date < b.date) := by
    refine applyBuys_sorted fund ops (mkPortfolio funds cash0 sched sttBps txnBps) p hops
      hreach ?_ fifo hf
    intro L hL
    rw [mkPortfolio_lookup] at hL
    by_cases hmem : fund ∈ funds
    · rw [if_pos hmem] at hL
      injection hL with hL
      subst hL
      exact ⟨List.Pairwise.nil, by simp⟩
    · rw [if_neg hmem] at hL
      exact Option.noConfusion hL
  simp only [applyCostsOnSell, hf] at h
  injection h with h
  rw [Prod.ext_iff] at h
  obtain ⟨h1, h2⟩ := h
  subst h1 h2
  simp only [] at hf1
  rw [lookupLots_setLots] at hf1
  injection hf1 with hf1
  subst hf1
  exact sellWalk_fifo_order p.exitLoadSchedule p.sttSellBps p.txnCostBps date nav true
    fifo u hsorted

/-- C1 witness: after buys on days 0 and 31, a partial sell of 150 units on
day 90 traces the day-0 lot before the day-31 lot and leaves only the
day-31 remainder. -/
theorem fifo_depletion_order_witness :
    RW.log.Pairwise (fun a b => a.lotDate < b.lotDate)
      ∧ ∀ line ∈ RW.log, ∀ m ∈ [Lot.mk 31 "F" 50 10], line.lotDate ≤ m.date := by
  refine fifo_depletion_order ["F"] 0 [(365, 100)] 10 0 "F"
    [⟨0, 1000, 10⟩, ⟨31, 1000, 10⟩] PW 90 150 12 RW PW1
    [Lot.mk 0 "F" 100 10, Lot.mk 31 "F" 100 10] [Lot.mk 31 "F" 50 10]
    (by decide) ?_ rfl ?_ rfl
  · norm_num [applyBuys, buy, mkPortfolio, initLots, setdefaultLots, lookupLots,
      List.find?, setLots, PW,
      (show (("F" : String) == "F") = true from by decide)]
  · norm_num [applyCostsOnSell, sellWalk, lookupLots, List.find?, PW, PW1, RW,
      exitBps, min_def, setLots,
      (show (("F" : String) == "F") = true from by decide)]

end SIPBacktester
